import Mathlib

/-
Shallow embedding of the distribution-introspection engine of
`pip show` (file `src/pip/_internal/commands/show.py`, function
`search_packages_info` and its helpers).  External collaborators
(pkg_resources metadata access, `os.path`, the email header parser,
the XML-RPC remote lookup) are modelled as explicit data carried on
the package record or as function parameters, following the spec's
collaborator interfaces.
-/

namespace PipShow

/-! ## Name canonicalization (`packaging.utils.canonicalize_name`)

`canonicalize_name(name) = re.sub(r"[-_.]+", "-", name).lower()`:
every run of `-`, `_`, `.` characters collapses to a single `-`,
then the result is lowercased (ASCII model of `str.lower`). -/

def sepChar (c : Char) : Bool :=
  c == '-' || c == '_' || c == '.'

/-- Collapse runs of separator characters to a single `-`.
The boolean records whether the previous character was a separator
(so that a run emits only one `-`). -/
def collapseSeps : Bool → List Char → List Char
  | _, [] => []
  | inSep, c :: cs =>
    if sepChar c then
      if inSep then collapseSeps true cs else '-' :: collapseSeps true cs
    else
      c :: collapseSeps false cs

def canonicalize_name (s : String) : String :=
  ⟨(collapseSeps false s.data).map Char.toLower⟩

/-! ## Query spellings that differ only in case or separators -/

/-- Two characters agree up to case/separator choice: either both are
separator characters (`-`, `_`, `.`), or neither is and they are the
same letter up to case. -/
def sameCS (c d : Char) : Bool :=
  (sepChar c && sepChar d) || (!sepChar c && !sepChar d && (c.toLower == d.toLower))

def sameSpellingL : List Char → List Char → Bool
  | [], [] => true
  | c :: cs, d :: ds => sameCS c d && sameSpellingL cs ds
  | _, _ => false

/-- Holds when `q` is a spelling of `n` differing only in letter case or in the
separators `-`, `_`, `.` (e.g. `Foo-Bar` / `foo_bar` / `FOO.BAR`). -/
def sameSpelling (q n : String) : Bool :=
  sameSpellingL q.data n.data

theorem collapseSeps_sameSpelling (l₁ : List Char) : ∀ (l₂ : List Char) (b : Bool),
    sameSpellingL l₁ l₂ = true →
    (collapseSeps b l₁).map Char.toLower = (collapseSeps b l₂).map Char.toLower := by
  induction l₁ with
  | nil =>
    intro l₂ b h
    cases l₂ with
    | nil => rfl
    | cons d ds => simp [sameSpellingL] at h
  | cons c cs ih =>
    intro l₂ b h
    cases l₂ with
    | nil => simp [sameSpellingL] at h
    | cons d ds =>
      rw [sameSpellingL, Bool.and_eq_true] at h
      obtain ⟨hcd, hrest⟩ := h
      cases hsc : sepChar c with
      | true =>
        have hd : sepChar d = true := by
          rw [sameCS, hsc] at hcd
          simpa using hcd
        simp only [collapseSeps, hsc, hd, if_true]
        cases b with
        | true => simpa using ih ds true hrest
        | false =>
          simp only [Bool.false_eq_true, if_false, List.map_cons]
          rw [ih ds true hrest]
      | false =>
        have hcd' : sepChar d = false ∧ c.toLower = d.toLower := by
          rw [sameCS, hsc] at hcd
          simpa using hcd
        simp only [collapseSeps, hsc, hcd'.1, Bool.false_eq_true, if_false, List.map_cons]
        rw [hcd'.2, ih ds false hrest]

theorem canonicalize_name_of_sameSpelling {q n : String} (h : sameSpelling q n = true) :
    canonicalize_name q = canonicalize_name n :=
  congrArg String.mk (collapseSeps_sameSpelling q.data n.data false h)

/-! ## Data model

`Requirement` models a `pkg_resources.Requirement`: `key` is the
normalized lookup key used in all identity comparisons (`r.key`),
`projectName` the display name and `specifier` the version-constraint
string.  Requirement equality (used by Python `set` operations on
requirements) compares all components, mirroring
`Requirement.hashCmp`. -/

structure Requirement where
  key : String
  projectName : String
  specifier : String
  deriving DecidableEq, Inhabited, Repr

/-- One installed distribution, as surfaced to `search_packages_info`
by the metadata-accessor collaborator (`pkg_resources`):
`depsUncond` is the unconditional dependency list (`dm[None]`),
`depsExtra` maps each declared extra to the additional requirements
that extra introduces (`dm[extra]`), and the `Option` fields model
`has_metadata`/`get_metadata`/`get_metadata_lines` for the respective
metadata files (`none` = file absent). -/
structure Dist where
  projectName : String
  key : String
  version : String
  location : String
  eggInfo : String
  isDistInfo : Bool
  extras : List String
  depsUncond : List Requirement
  depsExtra : List (String × List Requirement)
  recordLines : Option (List String)
  installedFilesLines : Option (List String)
  metadataText : Option String
  pkgInfoText : Option String
  entryPointsLines : Option (List String)
  installerLines : Option (List String)
  deriving DecidableEq, Inhabited, Repr

/-- Model of `dist.requires(extras)`: the unconditional requirements followed by
the additional requirements of each requested extra, in declaration
order (pkg_resources `Distribution.requires`). -/
def Dist.requires (d : Dist) (exts : List String) : List Requirement :=
  d.depsUncond ++ exts.flatMap (fun e => (((d.depsExtra.find? (fun pr => pr.1 == e)).map (fun pr => pr.2)).getD []))

/-! ## The installed index (a Python `dict` keyed by canonical name)

`installed[canonicalize_name(p.project_name)] = p` for each `p` in the
working set: insertion order is preserved and a repeated key
overwrites the stored value in place (last write wins). -/

def insertDict : List (String × Dist) → String → Dist → List (String × Dist)
  | [], k, v => [(k, v)]
  | kv :: rest, k, v =>
    if kv.1 == k then (kv.1, v) :: rest else kv :: insertDict rest k v

def lookupDict (l : List (String × Dist)) (k : String) : Option Dist :=
  (l.find? (fun kv => kv.1 == k)).map (fun kv => kv.2)

def containsKey (l : List (String × Dist)) (k : String) : Bool :=
  l.any (fun kv => kv.1 == k)

def buildInstalled (ws : List Dist) : List (String × Dist) :=
  ws.foldl (fun acc p => insertDict acc (canonicalize_name p.projectName) p) []

/-- Resolution of one query name against the installed index:
`installed.get(canonicalize_name(name))`. -/
def resolveQuery (ws : List Dist) (n : String) : Option Dist :=
  lookupDict (buildInstalled ws) (canonicalize_name n)

theorem lookupDict_nil (k : String) : lookupDict [] k = none := rfl

theorem lookupDict_cons (kv : String × Dist) (rest : List (String × Dist)) (k : String) :
    lookupDict (kv :: rest) k = if kv.1 = k then some kv.2 else lookupDict rest k := by
  by_cases h : kv.1 = k
  · have hb : (kv.1 == k) = true := beq_iff_eq.mpr h
    simp [lookupDict, List.find?, hb, h]
  · have hb : (kv.1 == k) = false := by simpa using h
    simp [lookupDict, List.find?, hb, h]

theorem insertDict_cons (kv : String × Dist) (rest : List (String × Dist)) (k : String)
    (v : Dist) :
    insertDict (kv :: rest) k v =
      if kv.1 = k then (kv.1, v) :: rest else kv :: insertDict rest k v := by
  by_cases h : kv.1 = k
  · have hb : (kv.1 == k) = true := beq_iff_eq.mpr h
    simp [insertDict, hb, h]
  · have hb : (kv.1 == k) = false := by simpa using h
    simp [insertDict, hb, h]

theorem lookupDict_insertDict_self (l : List (String × Dist)) (k : String) (v : Dist) :
    lookupDict (insertDict l k v) k = some v := by
  induction l with
  | nil => simp [insertDict, lookupDict_cons, lookupDict_nil]
  | cons kv rest ih =>
    rw [insertDict_cons]
    by_cases hk : kv.1 = k
    · simp [lookupDict_cons, hk]
    · simp [lookupDict_cons, hk, ih]

theorem lookupDict_insertDict_ne (l : List (String × Dist)) (k k' : String) (v : Dist)
    (h : k' ≠ k) :
    lookupDict (insertDict l k v) k' = lookupDict l k' := by
  induction l with
  | nil =>
    have : ¬(k = k') := Ne.symm h
    simp [insertDict, lookupDict_cons, lookupDict_nil, this]
  | cons kv rest ih =>
    rw [insertDict_cons]
    by_cases hh : kv.1 = k
    · have hne : ¬(kv.1 = k') := by rw [hh]; exact Ne.symm h
      rw [if_pos hh]
      simp [lookupDict_cons, hne]
    · rw [if_neg hh]
      by_cases hk2 : kv.1 = k'
      · simp [lookupDict_cons, hk2]
      · simp [lookupDict_cons, hk2, ih]

theorem lookupDict_insertDict_isSome (l : List (String × Dist)) (k k' : String) (v : Dist)
    (h : (lookupDict l k').isSome = true) :
    (lookupDict (insertDict l k v) k').isSome = true := by
  by_cases hk : k' = k
  · subst hk; simp [lookupDict_insertDict_self]
  · rw [lookupDict_insertDict_ne l k k' v hk]; exact h

theorem buildInstalled_keyFor_mem (ws : List Dist) (p : Dist) (hp : p ∈ ws) :
    (lookupDict (buildInstalled ws) (canonicalize_name p.projectName)).isSome = true := by
  suffices h : ∀ (l : List Dist) (acc : List (String × Dist)) (k : String),
      ((lookupDict acc k).isSome = true ∨ ∃ q ∈ l, canonicalize_name q.projectName = k) →
      (lookupDict (l.foldl (fun a q => insertDict a (canonicalize_name q.projectName) q) acc) k).isSome = true by
    exact h ws [] (canonicalize_name p.projectName) (Or.inr ⟨p, hp, rfl⟩)
  intro l
  induction l with
  | nil =>
    intro acc k h
    rcases h with h | ⟨q, hq, _⟩
    · simpa using h
    · exact absurd hq (List.not_mem_nil q)
  | cons q l ih =>
    intro acc k h
    simp only [List.foldl_cons]
    apply ih
    rcases h with h | ⟨r, hr, hk⟩
    · exact Or.inl (lookupDict_insertDict_isSome _ _ _ _ h)
    · rcases List.mem_cons.mp hr with rfl | hr'
      · exact Or.inl (by rw [hk] at *; simp [lookupDict_insertDict_self])
      · exact Or.inr ⟨r, hr', hk⟩

/-- C1: name lookup is normalization-insensitive.  For every installed
package `p` and every query string `q` spelling `p`'s name with
different letter case or different separators among `-`, `_`, `.`,
`search_packages_info`'s index resolution maps `q` and `p`'s own name
to the same installed-index entry, and that entry exists. -/
theorem resolve_same_for_spellings (ws : List Dist) (p : Dist) (q : String)
    (hp : p ∈ ws) (hq : sameSpelling q p.projectName = true) :
    resolveQuery ws q = resolveQuery ws p.projectName ∧
      (resolveQuery ws q).isSome = true := by
  have hc : canonicalize_name q = canonicalize_name p.projectName :=
    canonicalize_name_of_sameSpelling hq
  constructor
  · simp [resolveQuery, hc]
  · simp only [resolveQuery, hc]
    exact buildInstalled_keyFor_mem ws p hp

def wsC1 : List Dist :=
  [{ projectName := "Foo-Bar", key := "foo-bar", version := "1.0", location := "/sp",
     eggInfo := "/sp/e", isDistInfo := true, extras := [], depsUncond := [], depsExtra := [],
     recordLines := none, installedFilesLines := none, metadataText := some "Summary: demo",
     pkgInfoText := none, entryPointsLines := none, installerLines := none }]

theorem resolve_same_for_spellings_witness :
    (wsC1.head! ∈ wsC1 ∧ sameSpelling "FOO.BAR" wsC1.head!.projectName = true) ∧
      (resolveQuery wsC1 "FOO.BAR" = resolveQuery wsC1 wsC1.head!.projectName ∧
        (resolveQuery wsC1 "FOO.BAR").isSome = true) :=
  ⟨⟨by decide, by decide⟩,
    resolve_same_for_spellings wsC1 wsC1.head! "FOO.BAR" (by decide) (by decide)⟩

/-! ## Python library helpers used by `search_packages_info` -/

/-- Model of `str.splitlines` for LF-separated text: split on `\n`, with no
trailing empty line when the text ends in a newline. -/
def pySplitlines (s : String) : List String :=
  if s = "" then []
  else
    let parts := s.split (fun c => c == '\n')
    if parts.getLast? = some "" then parts.dropLast else parts

/-- Python `sorted` on strings: lexicographic by code point. -/
def pySortStr (l : List String) : List String :=
  l.mergeSort (fun a b => decide (a ≤ b))

/-- Model of `os.path.join` restricted to our use: an absolute second component
replaces the base, a relative one is appended with a `/`. -/
def pyJoin (a b : String) : String :=
  if b.startsWith "/" then b else if a = "" then b else a ++ "/" ++ b

/-- Model of `os.path.relpath p start` in the common case that `p` lies under
`start`; other paths are returned unchanged. -/
def pyRelpath (p start : String) : String :=
  if !(start == "") && p.startsWith (start ++ "/") then p.drop (start.length + 1) else p

/-! ## Python `set` operations on requirements

`set(xs) - set(ys)` has a well-defined membership but an unspecified
iteration order (CPython hash order).  `pySetDiff` is a
membership-faithful representative (first-occurrence order);
`isPySetIter` characterises every enumeration a Python `set` with
those members may produce. -/

def pyDedupAux : List Requirement → List Requirement → List Requirement
  | _, [] => []
  | seen, r :: rs =>
    if seen.contains r then pyDedupAux seen rs else r :: pyDedupAux (r :: seen) rs

def pySetDiff (xs ys : List Requirement) : List Requirement :=
  (pyDedupAux [] xs).filter (fun r => !(ys.contains r))

/-- The possible iteration sequences of the Python set whose members
are the members of `xs`: any duplicate-free enumeration of exactly
those elements. -/
def isPySetIter (xs l : List Requirement) : Prop :=
  l.Nodup ∧ (∀ r ∈ l, r ∈ xs) ∧ (∀ r ∈ xs, r ∈ l)

instance instDecIsPySetIter (xs l : List Requirement) : Decidable (isPySetIter xs l) :=
  inferInstanceAs (Decidable (l.Nodup ∧ (∀ r ∈ l, r ∈ xs) ∧ (∀ r ∈ xs, r ∈ l)))

/-! ## `search_packages_info` components -/

/-- Model of `set(dist.requires([e])) - set(dist.requires())`: the requirement
set shown for extra `e` (membership representative). -/
def extraSetOf (d : Dist) (e : String) : List Requirement :=
  pySetDiff (d.requires [e]) (d.requires [])

/-- Model of `pkg_resources.get_distribution(r.project_name).version`, with the
`DistributionNotFound` fallback `"-"` (helper `_format_package`). -/
def getInstalledVersion (ws : List Dist) (r : Requirement) : String :=
  match ws.find? (fun d => d.key == r.key) with
  | some d => d.version
  | none => "-"

def reqString (r : Requirement) : String := r.projectName ++ r.specifier

/-- Model of `_format_package`: `"%s [%s]" % (r, installed_ver)`. -/
def formatPackage (ws : List Dist) (r : Requirement) : String :=
  reqString r ++ " [" ++ getInstalledVersion ws r ++ "]"

/-- Model of `next((r for r in rs if r.key == dist.key), None)`. -/
def reqMatch (dist : Dist) (rs : List Requirement) : Option Requirement :=
  rs.find? (fun r => r.key == dist.key)

/-- The `required_by` entries one installed package `p` contributes for
target `dist`: an unconditional match yields `"name specifier"` and
suppresses the extras scan, otherwise each matching extra yields
`"name[extra] specifier"` (loop body of the `for _, p in
installed.items()` loop). -/
def contribution (p dist : Dist) : List String :=
  match reqMatch dist (p.requires []) with
  | some r => [p.projectName ++ " " ++ r.specifier]
  | none =>
    p.extras.filterMap (fun e =>
      (reqMatch dist (p.requires [e])).map (fun r =>
        p.projectName ++ "[" ++ e ++ "] " ++ r.specifier))

/-- The full `required_by` list for `dist`, scanning every entry of the
installed index in insertion order. -/
def requiredByOf (installed : List (String × Dist)) (dist : Dist) : List String :=
  (installed.map (fun kv => kv.2)).flatMap (fun p => contribution p dist)

/-! ## Metadata accessor model (`FeedParser` header fields etc.) -/

def headerLines (m : String) : List String :=
  (pySplitlines m).takeWhile (fun l => !(l == ""))

/-- Model of `pkg_info_dict.get(key)`: first header line (before the blank
separator) matching `key` case-insensitively, its value returned. -/
def fieldGet (m key : String) : Option String :=
  (headerLines m).findSome? (fun l =>
    if l.toLower.startsWith (key ++ ": ") then some (l.drop (key.length + 2)) else none)

/-- The raw-line classifier scan (the code notes `FeedParser` cannot
deal with repeated headers): every line of the metadata starting with
`"Classifier: "`, its value collected in order. -/
def classifiersOf (m : String) : List String :=
  ((pySplitlines m).filter (fun l => l.startsWith "Classifier: ")).map (fun l => l.drop 12)

/-- First non-blank `INSTALLER` line, stripped. -/
def installerOf (d : Dist) : Option String :=
  d.installerLines.bind (fun ls =>
    (ls.find? (fun l => !(l.trim == ""))).map (fun l => l.trim))

/-- The metadata block fed to the header parser: `METADATA` for
dist-info distributions, `PKG-INFO` otherwise. -/
def metadataBlockOf (d : Dist) : Option String :=
  if d.isDistInfo then d.metadataText else d.pkgInfoText

/-- Model of `file_list`: `RECORD` paths (first comma-separated field, joined to
the location and relativised back) for dist-info, otherwise
`installed-files.txt` entries joined to the egg-info directory and
relativised to the location. -/
def fileListOf (d : Dist) : Option (List String) :=
  if d.isDistInfo then
    d.recordLines.map (fun ls => ls.map (fun l =>
      pyRelpath (pyJoin d.location ((l.splitOn ",").headD "")) d.location))
  else
    d.installedFilesLines.map (fun ls => ls.map (fun p =>
      pyRelpath (pyJoin d.eggInfo p) d.location))

/-- Model of `if file_list: package["files"] = sorted(file_list)` — the key is
absent for a missing or empty file list. -/
def filesEntry (d : Dist) : Option (List String) :=
  match fileListOf d with
  | some l => if l.isEmpty then none else some (pySortStr l)
  | none => none

/-! ## Report records -/

/-- One `package` mapping yielded by `search_packages_info`; absent
keys are `none`. -/
structure Record where
  name : String
  version : String
  pypi_version : Option String
  location : String
  requires : List String
  required_by : List String
  extras : List (String × List String)
  entry_points : Option (List String)
  installer : Option String
  metadata_version : Option String
  summary : Option String
  home_page : Option String
  author : Option String
  author_email : Option String
  license : Option String
  classifiers : List String
  files : Option (List String)
  deriving DecidableEq, Inhabited, Repr

/-- Python exceptions `search_packages_info` can raise in this model:
`typeError` is `feed_parser.feed(None)` when neither `METADATA` nor
`PKG-INFO` exists; `remote` is an uncaught transport error from the
XML-RPC lookup. -/
inductive PyErr where
  | typeError
  | remote (msg : String)
  deriving DecidableEq, Repr

/-- The remote index collaborator: `package_releases(project_name)`
either returns the release list or raises a transport error. -/
def Session : Type := String → Except String (List String)

/-- The `if session:` block: `pypi.package_releases(dist.project_name)`,
then `pypi_releases[0] if pypi_releases else "UNKNOWN"`.  A transport
error is not caught. -/
def pypiLookup : Option Session → Dist → Except PyErr (Option String)
  | none, _ => .ok none
  | some s, dist =>
    match s dist.projectName with
    | .error msg => .error (.remote msg)
    | .ok [] => .ok (some "UNKNOWN")
    | .ok (v :: _) => .ok (some v)

/-- The `package` dictionary assembled for one found distribution,
given an already-computed remote version `pv` and metadata text `m`. -/
def buildRecordCore (ws : List Dist) (installed : List (String × Dist)) (dist : Dist)
    (pv : Option String) (m : String) : Record :=
  { name := dist.projectName
    version := dist.version
    pypi_version := pv
    location := dist.location
    requires := (dist.requires []).map (formatPackage ws)
    required_by := requiredByOf installed dist
    extras := dist.extras.map (fun e => (e, (extraSetOf dist e).map (formatPackage ws)))
    entry_points := dist.entryPointsLines
    installer := installerOf dist
    metadata_version := fieldGet m "metadata-version"
    summary := fieldGet m "summary"
    home_page := fieldGet m "home-page"
    author := fieldGet m "author"
    author_email := fieldGet m "author-email"
    license := fieldGet m "license"
    classifiers := classifiersOf m
    files := filesEntry dist }

/-- The loop body of `search_packages_info` for one distribution:
remote lookup first (uncaught error aborts), then the metadata block is
fed to the header parser — `feed(None)` raises `TypeError` when the
block is missing. -/
def buildRecord (ws : List Dist) (installed : List (String × Dist)) (session : Option Session)
    (dist : Dist) : Except PyErr Record :=
  match pypiLookup session dist with
  | .error e => .error e
  | .ok pv =>
    match metadataBlockOf dist with
    | none => .error .typeError
    | some m => .ok (buildRecordCore ws installed dist pv m)

/-- Consumption of the `search_packages_info` generator: records are
produced in order until the first uncaught exception. -/
def runRecords (build : Dist → Except PyErr Record) : List Dist → Except PyErr (List Record)
  | [] => .ok []
  | d :: ds =>
    match build d with
    | .error e => .error e
    | .ok r =>
      match runRecords build ds with
      | .error e => .error e
      | .ok rs => .ok (r :: rs)

/-- Model of `[installed[pkg] for pkg in query_names if pkg in installed]`. -/
def distributionsOf (ws : List Dist) (query : List String) : List Dist :=
  (query.map canonicalize_name).filterMap (fun pkg => lookupDict (buildInstalled ws) pkg)

/-- Model of `sorted([name for name, pkg in zip(query, query_names) if pkg not in
installed])`: the names reported in the `Package(s) not found`
warning. -/
def missingOf (ws : List Dist) (query : List String) : List String :=
  pySortStr (((query.zip (query.map canonicalize_name)).filter
    (fun qp => !(containsKey (buildInstalled ws) qp.2))).map (fun qp => qp.1))

instance instDecEqExcept {ε α : Type} [DecidableEq ε] [DecidableEq α] :
    DecidableEq (Except ε α) := fun a b =>
  match a, b with
  | .error e, .error f =>
    if h : e = f then isTrue (congrArg Except.error h)
    else isFalse (fun hh => h (Except.error.inj hh))
  | .error _, .ok _ => isFalse (fun hh => Except.noConfusion hh)
  | .ok _, .error _ => isFalse (fun hh => Except.noConfusion hh)
  | .ok x, .ok y =>
    if h : x = y then isTrue (congrArg Except.ok h)
    else isFalse (fun hh => h (Except.ok.inj hh))

structure SearchOutput where
  missing : List String
  result : Except PyErr (List Record)
  deriving DecidableEq, Repr

/-- Model of `search_packages_info(query, index_url, session)`: the missing-name
diagnostic plus the fully consumed record stream. -/
def searchPackagesInfo (query : List String) (ws : List Dist) (session : Option Session) :
    SearchOutput :=
  { missing := missingOf ws query
    result := runRecords (buildRecord ws (buildInstalled ws) session) (distributionsOf ws query) }

/-- The record produced for `d` when no remote session is given and the
metadata block is present. -/
def recordFor (ws : List Dist) (d : Dist) : Record :=
  buildRecordCore ws (buildInstalled ws) d none ((metadataBlockOf d).getD "")

/-- Every name of the query resolves against the installed index and
the resolved distribution has a metadata block. -/
def resolvesWithMeta (ws : List Dist) (n : String) : Bool :=
  ((resolveQuery ws n).bind metadataBlockOf).isSome

/-- Whenever a name resolves, the resolved distribution has a metadata
block (unresolved names are unconstrained). -/
def resolvedHasMeta (ws : List Dist) (n : String) : Bool :=
  (resolveQuery ws n).all (fun d => (metadataBlockOf d).isSome)

/-! ## Basic lemmas about the embedded components -/

theorem containsKey_eq (l : List (String × Dist)) (k : String) :
    containsKey l k = (lookupDict l k).isSome := by
  induction l with
  | nil => rfl
  | cons kv rest ih =>
    rw [containsKey, List.any_cons, lookupDict_cons]
    by_cases h : kv.1 = k
    · simp [h]
    · have hb : (kv.1 == k) = false := by simpa using h
      simp [h, hb, ← ih, containsKey]

theorem resolveQuery_eq_none_iff (ws : List Dist) (n : String) :
    resolveQuery ws n = none ↔
      containsKey (buildInstalled ws) (canonicalize_name n) = false := by
  rw [containsKey_eq]
  cases h : resolveQuery ws n <;> simp_all [resolveQuery]

theorem buildRecord_ok (ws : List Dist) (installed : List (String × Dist)) (d : Dist)
    (hm : (metadataBlockOf d).isSome = true) :
    buildRecord ws installed none d =
      .ok (buildRecordCore ws installed d none ((metadataBlockOf d).getD "")) := by
  rcases h : metadataBlockOf d with _ | m
  · rw [h] at hm; cases hm
  · simp [buildRecord, pypiLookup, h]

theorem runRecords_map_ok (build : Dist → Except PyErr Record) (g : Dist → Record) :
    ∀ (ds : List Dist), (∀ d ∈ ds, build d = .ok (g d)) →
      runRecords build ds = .ok (ds.map g) := by
  intro ds
  induction ds with
  | nil => intro _; rfl
  | cons d ds ih =>
    intro h
    have hd := h d (List.mem_cons_self d ds)
    have hds := ih (fun x hx => h x (List.mem_cons_of_mem d hx))
    simp [runRecords, hd, hds]

theorem distributionsOf_eq (ws : List Dist) (query : List String) :
    distributionsOf ws query = query.filterMap (resolveQuery ws) := by
  rw [distributionsOf, List.filterMap_map]
  rfl

theorem length_filterMap_eq_countP (f : String → Option Dist) (l : List String) :
    (l.filterMap f).length = l.countP (fun a => (f a).isSome) := by
  induction l with
  | nil => rfl
  | cons a l ih => cases h : f a <;> simp [List.filterMap_cons, h, List.countP_cons, ih]

theorem count_filterMap_eq (f : String → Option Dist) (l : List String) (p : Dist) :
    (l.filterMap f).count p = l.countP (fun a => f a == some p) := by
  induction l with
  | nil => rfl
  | cons a l ih =>
    cases h : f a with
    | none => simp [List.filterMap_cons, h, List.countP_cons, ih]
    | some b =>
      by_cases hb : b = p
      · simp [List.filterMap_cons, h, hb, List.count_cons, List.countP_cons, ih]
      · simp [List.filterMap_cons, h, hb, List.count_cons, List.countP_cons, ih]

theorem zip_self_map (l : List String) (f : String → String) :
    l.zip (l.map f) = l.map (fun a => (a, f a)) := by
  induction l with
  | nil => rfl
  | cons a l ih => simp [ih]

theorem mem_missingOf (ws : List Dist) (query : List String) (n : String) :
    n ∈ missingOf ws query ↔ (n ∈ query ∧ resolveQuery ws n = none) := by
  rw [missingOf, pySortStr, List.mem_mergeSort, zip_self_map]
  induction query with
  | nil => simp
  | cons q qs ih =>
    simp only [List.map_cons, List.filter_cons]
    cases hq : containsKey (buildInstalled ws) (canonicalize_name q) with
    | true =>
      have hnone : ¬(resolveQuery ws q = none) := by
        rw [resolveQuery_eq_none_iff, hq]; simp
      simp only [hq, Bool.not_true, Bool.false_eq_true, if_false, List.mem_cons]
      rw [ih]
      constructor
      · rintro ⟨hmem, hres⟩
        exact ⟨Or.inr hmem, hres⟩
      · rintro ⟨rfl | hmem', hres⟩
        · exact absurd hres hnone
        · exact ⟨hmem', hres⟩
    | false =>
      have hnone : resolveQuery ws q = none := (resolveQuery_eq_none_iff ws q).mpr hq
      simp only [hq, Bool.not_false, eq_self_iff_true, if_true, List.map_cons, List.mem_cons]
      rw [ih]
      constructor
      · rintro (rfl | ⟨hmem', hres⟩)
        · exact ⟨Or.inl rfl, hnone⟩
        · exact ⟨Or.inr hmem', hres⟩
      · rintro ⟨rfl | hmem', hres⟩
        · exact Or.inl rfl
        · exact Or.inr ⟨hmem', hres⟩

/-! ## Lemmas about the Python set model -/

theorem mem_pyDedupAux (xs : List Requirement) : ∀ (seen : List Requirement) (r : Requirement),
    r ∈ pyDedupAux seen xs ↔ (r ∈ xs ∧ r ∉ seen) := by
  induction xs with
  | nil => intro seen r; simp [pyDedupAux]
  | cons x xs ih =>
    intro seen r
    by_cases hx : seen.contains x = true
    · have hxmem : x ∈ seen := by simpa using hx
      rw [pyDedupAux, if_pos hx, ih]
      by_cases hrx : r = x
      · subst hrx
        simp [hxmem]
      · simp [hrx]
    · have hxmem : x ∉ seen := by simpa using hx
      rw [pyDedupAux, if_neg hx]
      by_cases hrx : r = x
      · subst hrx
        simp [hxmem]
      · rw [List.mem_cons, ih (x :: seen) r, List.mem_cons]
        simp [hrx]

theorem nodup_pyDedupAux (xs : List Requirement) : ∀ (seen : List Requirement),
    (pyDedupAux seen xs).Nodup := by
  induction xs with
  | nil => intro seen; simp [pyDedupAux]
  | cons x xs ih =>
    intro seen
    by_cases hx : seen.contains x = true
    · rw [pyDedupAux, if_pos hx]; exact ih seen
    · rw [pyDedupAux, if_neg hx]
      refine List.Nodup.cons ?_ (ih (x :: seen))
      intro hmem
      have := (mem_pyDedupAux xs (x :: seen) x).mp hmem
      exact this.2 (List.mem_cons_self x seen)

theorem mem_pySetDiff (xs ys : List Requirement) (r : Requirement) :
    r ∈ pySetDiff xs ys ↔ (r ∈ xs ∧ r ∉ ys) := by
  rw [pySetDiff, List.mem_filter, mem_pyDedupAux]
  simp

theorem nodup_pySetDiff (xs ys : List Requirement) : (pySetDiff xs ys).Nodup :=
  List.Nodup.filter _ (nodup_pyDedupAux xs [])

/-! ## Production of the record stream -/

theorem runRecords_forall₂ (ws : List Dist) (query : List String)
    (hall : query.all (resolvesWithMeta ws) = true) :
    ∃ recs,
      runRecords (buildRecord ws (buildInstalled ws) none)
          (query.filterMap (resolveQuery ws)) = .ok recs ∧
        List.Forall₂ (fun n r => ∃ p, resolveQuery ws n = some p ∧ r = recordFor ws p ∧
          r.name = p.projectName) query recs := by
  induction query with
  | nil => exact ⟨[], rfl, List.Forall₂.nil⟩
  | cons n q ih =>
    rw [List.all_cons, Bool.and_eq_true] at hall
    obtain ⟨hn, hq⟩ := hall
    obtain ⟨recs, hrun, hfa⟩ := ih hq
    rcases hp : resolveQuery ws n with _ | p
    · simp only [resolvesWithMeta, hp, Option.none_bind] at hn
      simp at hn
    · have hm : (metadataBlockOf p).isSome = true := by
        simpa only [resolvesWithMeta, hp, Option.some_bind] using hn
      refine ⟨recordFor ws p :: recs, ?_, List.Forall₂.cons ⟨p, hp, rfl, rfl⟩ hfa⟩
      simp only [List.filterMap_cons, hp]
      simp only [runRecords, buildRecord_ok _ _ _ hm, hrun, recordFor]

theorem filter_map_eq_filterMap (p : String → Bool) (f : String → String) (ls : List String) :
    (ls.filter p).map f =
      ls.filterMap (fun l => if p l then some (f l) else none) := by
  induction ls with
  | nil => rfl
  | cons l ls ih =>
    cases h : p l <;> simp [List.filter_cons, List.filterMap_cons, h, ih]

theorem length_filter_eq_countP (p : String → Bool) (ls : List String) :
    (ls.filter p).length = ls.countP p := by
  induction ls with
  | nil => rfl
  | cons l ls ih =>
    cases h : p l <;> simp [List.filter_cons, List.countP_cons, h, ih]

/-! ## Claim theorems (batch: C2, C7, C8, C10) -/

/-- C2: every query name with no normalized match in the installed
index appears in the missing-name diagnostic (and only such names do),
while the remaining names each still yield a report record — the
record list is exactly one record per resolvable query name, and no
missing name aborts the batch. -/
theorem missing_reported_found_yield (ws : List Dist) (query : List String)
    (hall : query.all (resolvedHasMeta ws) = true) :
    (∀ n, n ∈ (searchPackagesInfo query ws none).missing ↔
        (n ∈ query ∧ resolveQuery ws n = none)) ∧
      ∃ recs, (searchPackagesInfo query ws none).result = .ok recs ∧
        recs = (query.filterMap (resolveQuery ws)).map (recordFor ws) ∧
        recs.length = query.countP (fun n => (resolveQuery ws n).isSome) := by
  constructor
  · intro n
    exact mem_missingOf ws query n
  · refine ⟨(query.filterMap (resolveQuery ws)).map (recordFor ws), ?_, rfl, ?_⟩
    · show runRecords _ (distributionsOf ws query) = _
      rw [distributionsOf_eq]
      apply runRecords_map_ok
      intro d hd
      obtain ⟨n, hn, hres⟩ := List.mem_filterMap.mp hd
      have h1 : resolvedHasMeta ws n = true := by
        rw [List.all_eq_true] at hall
        exact hall n hn
      simp only [resolvedHasMeta, hres, Option.all_some] at h1
      exact buildRecord_ok ws (buildInstalled ws) d h1
    · rw [List.length_map, length_filterMap_eq_countP]

def wsC2 : List Dist :=
  [{ projectName := "Pkg-A", key := "pkg-a", version := "1.0", location := "/sp",
     eggInfo := "/sp/e", isDistInfo := true, extras := [], depsUncond := [], depsExtra := [],
     recordLines := none, installedFilesLines := none, metadataText := some "Summary: a",
     pkgInfoText := none, entryPointsLines := none, installerLines := none }]

theorem missing_reported_found_yield_witness :
    (["Pkg-A", "ghost"].all (resolvedHasMeta wsC2) = true) ∧
      ((∀ n, n ∈ (searchPackagesInfo ["Pkg-A", "ghost"] wsC2 none).missing ↔
          (n ∈ ["Pkg-A", "ghost"] ∧ resolveQuery wsC2 n = none)) ∧
        ∃ recs, (searchPackagesInfo ["Pkg-A", "ghost"] wsC2 none).result = .ok recs ∧
          recs = (["Pkg-A", "ghost"].filterMap (resolveQuery wsC2)).map (recordFor wsC2) ∧
          recs.length =
            (["Pkg-A", "ghost"].countP (fun n => (resolveQuery wsC2 n).isSome))) :=
  ⟨by decide, missing_reported_found_yield wsC2 ["Pkg-A", "ghost"] (by decide)⟩

/-- Spec-side definition of the classifier extraction: the value of
every line carrying the `Classifier: ` header prefix, in source order,
none dropped. -/
def specClassifiers (ls : List String) : List String :=
  ls.filterMap (fun l => if l.startsWith "Classifier: " then some (l.drop 12) else none)

/-- C7: the classifiers list of a report record is exactly the value
of every `Classifier: `-prefixed line of the metadata block, in source
order with repetitions preserved; in particular its length is the
number of such lines. -/
theorem classifiers_preserved_in_order :
    (∀ (ws : List Dist) (installed : List (String × Dist)) (dist : Dist)
        (pv : Option String) (m : String),
      (buildRecordCore ws installed dist pv m).classifiers = classifiersOf m) ∧
      (∀ m : String, classifiersOf m = specClassifiers (pySplitlines m)) ∧
      (∀ m : String, (classifiersOf m).length =
        (pySplitlines m).countP (fun l => l.startsWith "Classifier: ")) := by
  refine ⟨fun _ _ _ _ _ => rfl, fun m => ?_, fun m => ?_⟩
  · rw [classifiersOf, specClassifiers]
    exact filter_map_eq_filterMap _ _ _
  · rw [classifiersOf, List.length_map]
    exact length_filter_eq_countP _ _

/-- C8: report records are produced in original query order — the
record list corresponds position-by-position to the query list, each
record being the one built for the distribution its query name
resolves to. -/
theorem records_in_query_order (ws : List Dist) (query : List String)
    (hall : query.all (resolvesWithMeta ws) = true) :
    ∃ recs, (searchPackagesInfo query ws none).result = .ok recs ∧
      List.Forall₂ (fun n r => ∃ p, resolveQuery ws n = some p ∧ r = recordFor ws p ∧
        r.name = p.projectName) query recs := by
  obtain ⟨recs, hrun, hfa⟩ := runRecords_forall₂ ws query hall
  refine ⟨recs, ?_, hfa⟩
  show runRecords _ (distributionsOf ws query) = _
  rw [distributionsOf_eq]
  exact hrun

def wsC8 : List Dist :=
  [{ projectName := "B", key := "b", version := "1", location := "/sp",
     eggInfo := "/sp/e", isDistInfo := true, extras := [], depsUncond := [], depsExtra := [],
     recordLines := none, installedFilesLines := none, metadataText := some "Summary: b",
     pkgInfoText := none, entryPointsLines := none, installerLines := none },
   { projectName := "A", key := "a", version := "2", location := "/sp",
     eggInfo := "/sp/e", isDistInfo := true, extras := [], depsUncond := [], depsExtra := [],
     recordLines := none, installedFilesLines := none, metadataText := some "Summary: a",
     pkgInfoText := none, entryPointsLines := none, installerLines := none },
   { projectName := "C", key := "c", version := "3", location := "/sp",
     eggInfo := "/sp/e", isDistInfo := true, extras := [], depsUncond := [], depsExtra := [],
     recordLines := none, installedFilesLines := none, metadataText := some "Summary: c",
     pkgInfoText := none, entryPointsLines := none, installerLines := none }]

theorem records_in_query_order_witness :
    (["B", "A", "C"].all (resolvesWithMeta wsC8) = true) ∧
      ∃ recs, (searchPackagesInfo ["B", "A", "C"] wsC8 none).result = .ok recs ∧
        List.Forall₂ (fun n r => ∃ p, resolveQuery wsC8 n = some p ∧ r = recordFor wsC8 p ∧
          r.name = p.projectName) ["B", "A", "C"] recs :=
  ⟨by decide, records_in_query_order wsC8 ["B", "A", "C"] (by decide)⟩

/-- C10: duplicate query names are not deduplicated — the number of
resolved distributions equal to `p` is exactly the number of query
names resolving to `p`, and every query position whose name resolves
to `p` carries `p`'s record in the output, one record per query
name. -/
theorem duplicate_queries_not_deduped (ws : List Dist) (query : List String) (p : Dist)
    (hall : query.all (resolvesWithMeta ws) = true) :
    (distributionsOf ws query).count p =
        query.countP (fun n => resolveQuery ws n == some p) ∧
      ∃ recs, (searchPackagesInfo query ws none).result = .ok recs ∧
        recs.length = query.length ∧
        List.Forall₂ (fun n r => resolveQuery ws n = some p → r = recordFor ws p) query recs := by
  constructor
  · rw [distributionsOf_eq]
    exact count_filterMap_eq _ _ _
  · obtain ⟨recs, hrun, hfa⟩ := runRecords_forall₂ ws query hall
    refine ⟨recs, ?_, (List.Forall₂.length_eq hfa).symm, ?_⟩
    · show runRecords _ (distributionsOf ws query) = _
      rw [distributionsOf_eq]
      exact hrun
    · refine hfa.imp ?_
      rintro n r ⟨d, hd, hr, _⟩ hres
      rw [hd] at hres
      injection hres with h'
      rw [← h']
      exact hr

def wsC10 : List Dist :=
  [{ projectName := "Foo.Bar", key := "foo-bar", version := "1", location := "/sp",
     eggInfo := "/sp/e", isDistInfo := true, extras := [], depsUncond := [], depsExtra := [],
     recordLines := none, installedFilesLines := none, metadataText := some "Summary: f",
     pkgInfoText := none, entryPointsLines := none, installerLines := none }]

/-! ## Claims about `required_by` self-dependencies (C3) -/

/-- The target's own metadata declares no dependency (unconditional or
via any of its extras) on its own key. -/
def noSelfDep (d : Dist) : Bool :=
  (d.requires []).all (fun r => !(r.key == d.key)) &&
    d.extras.all (fun e => (d.requires [e]).all (fun r => !(r.key == d.key)))

def rSelf : Requirement := ⟨"selfpkg", "SelfPkg", ">=1"⟩

def dSelf : Dist :=
  { projectName := "SelfPkg", key := "selfpkg", version := "1", location := "/sp",
    eggInfo := "/sp/e", isDistInfo := true, extras := [], depsUncond := [rSelf], depsExtra := [],
    recordLines := none, installedFilesLines := none, metadataText := some "Summary: s",
    pkgInfoText := none, entryPointsLines := none, installerLines := none }

/-- C3 counterexample: a package whose metadata declares a dependency
on its own key is reported as its own dependent — the `required_by`
loop has no self-exclusion, so the computed list consists exactly of
the entry naming the target itself. -/
theorem required_by_lists_selfdep_target_cx :
    requiredByOf (buildInstalled [dSelf]) dSelf =
      [dSelf.projectName ++ " " ++ rSelf.specifier] := by decide

/-- C3 amended: the target contributes no `required_by` entry provided
its own metadata declares no dependency on its own key; the list then
equals the contributions of the other index entries alone.  (With a
declared self-dependency the target is listed, see the
counterexample.) -/
theorem required_by_excludes_target_without_selfdep
    (installed : List (String × Dist)) (dist : Dist) (h : noSelfDep dist = true) :
    contribution dist dist = [] ∧
      requiredByOf installed dist =
        ((installed.map (fun kv => kv.2)).filter (fun p => !(p == dist))).flatMap
          (fun p => contribution p dist) := by
  rw [noSelfDep, Bool.and_eq_true] at h
  obtain ⟨h1, h2⟩ := h
  have hm : reqMatch dist (dist.requires []) = none := by
    rw [reqMatch, List.find?_eq_none]
    intro r hr
    rw [List.all_eq_true] at h1
    simpa using h1 r hr
  have hcontrib : contribution dist dist = [] := by
    rw [contribution, hm]
    refine List.filterMap_eq_nil_iff.mpr ?_
    intro e he
    have hm2 : reqMatch dist (dist.requires [e]) = none := by
      rw [reqMatch, List.find?_eq_none]
      intro r hr
      rw [List.all_eq_true] at h2
      have h2e := h2 e he
      rw [List.all_eq_true] at h2e
      simpa using h2e r hr
    rw [hm2]
    rfl
  refine ⟨hcontrib, ?_⟩
  rw [requiredByOf]
  generalize installed.map (fun kv => kv.2) = ps
  induction ps with
  | nil => rfl
  | cons p ps ih =>
    by_cases hp : p = dist
    · have hb : (!(p == dist)) = false := by simp [hp]
      simp only [List.flatMap_cons, List.filter_cons, hb, Bool.false_eq_true, if_false]
      rw [hp, hcontrib, List.nil_append, ih]
    · have hb : (!(p == dist)) = true := by simp [hp]
      simp only [List.flatMap_cons, List.filter_cons, hb, eq_self_iff_true, if_true]
      rw [ih]

def dPlain : Dist :=
  { projectName := "Plain", key := "plain", version := "1", location := "/sp",
    eggInfo := "/sp/e", isDistInfo := true, extras := ["x"],
    depsUncond := [⟨"other", "Other", ""⟩], depsExtra := [("x", [⟨"o2", "O2", ""⟩])],
    recordLines := none, installedFilesLines := none, metadataText := some "Summary: p",
    pkgInfoText := none, entryPointsLines := none, installerLines := none }

theorem required_by_excludes_target_without_selfdep_witness :
    (noSelfDep dPlain = true) ∧
      (contribution dPlain dPlain = [] ∧
        requiredByOf (buildInstalled [dPlain]) dPlain =
          (((buildInstalled [dPlain]).map (fun kv => kv.2)).filter
            (fun p => !(p == dPlain))).flatMap (fun p => contribution p dPlain)) :=
  ⟨by decide,
    required_by_excludes_target_without_selfdep (buildInstalled [dPlain]) dPlain (by decide)⟩

/-! ## Claims about the extras difference (C4) -/

def rY1 : Requirement := ⟨"y", "Y", ">=1"⟩

def rY2 : Requirement := ⟨"y", "Y", ">=2"⟩

def dX : Dist :=
  { projectName := "X", key := "x", version := "1", location := "/sp",
    eggInfo := "/sp/e", isDistInfo := true, extras := ["e"], depsUncond := [rY1],
    depsExtra := [("e", [rY2])], recordLines := none, installedFilesLines := none,
    metadataText := some "Summary: x", pkgInfoText := none, entryPointsLines := none,
    installerLines := none }

/-- C4 counterexample: `Y` (key `y`) is an unconditional dependency of
`X` (declared as `Y>=1`), yet the extras mapping still lists a `Y`
requirement under extra `e`, because the extra declares `Y>=2` and the
set difference compares whole requirements, not names. -/
theorem extras_lists_unconditional_name_cx :
    rY1 ∈ dX.requires [] ∧ rY2 ∈ extraSetOf dX "e" ∧ rY2.key = rY1.key ∧
      (buildRecordCore [dX] (buildInstalled [dX]) dX none "Summary: x").extras =
        [("e", ["Y>=2 [-]"])] := by decide

/-- C4 amended: the set listed under an extra is exactly the
requirement-level difference `set(requires([e])) - set(requires())`: a
requirement declared under the extra is omitted iff the identical
requirement (same key and constraint) is declared unconditionally, so
a same-named dependency with a different constraint is still listed;
the record's extras field is this difference, formatted, per declared
extra. -/
theorem extras_membership_requirement_diff (d : Dist) (e : String) (r : Requirement) :
    (r ∈ extraSetOf d e ↔ (r ∈ d.requires [e] ∧ r ∉ d.requires [])) ∧
      (r ∈ d.requires [] → r ∉ extraSetOf d e) ∧
      (∀ (ws : List Dist) (installed : List (String × Dist)) (pv : Option String) (m : String),
        (buildRecordCore ws installed d pv m).extras =
          d.extras.map (fun x => (x, (extraSetOf d x).map (formatPackage ws)))) :=
  ⟨mem_pySetDiff _ _ r,
    fun hr hmem => ((mem_pySetDiff _ _ r).mp hmem).2 hr,
    fun _ _ _ _ => rfl⟩

theorem extras_membership_requirement_diff_witness :
    (rY2 ∈ extraSetOf dX "e" ↔ (rY2 ∈ dX.requires ["e"] ∧ rY2 ∉ dX.requires [])) ∧
      (rY2 ∈ dX.requires [] → rY2 ∉ extraSetOf dX "e") ∧
      (∀ (ws : List Dist) (installed : List (String × Dist)) (pv : Option String) (m : String),
        (buildRecordCore ws installed dX pv m).extras =
          dX.extras.map (fun x => (x, (extraSetOf dX x).map (formatPackage ws)))) :=
  extras_membership_requirement_diff dX "e" rY2

/-! ## Claims about the remote lookup (C5) -/

def dRemA : Dist :=
  { projectName := "RA", key := "ra", version := "1", location := "/sp",
    eggInfo := "/sp/e", isDistInfo := true, extras := [], depsUncond := [], depsExtra := [],
    recordLines := none, installedFilesLines := none, metadataText := some "Summary: ra",
    pkgInfoText := none, entryPointsLines := none, installerLines := none }

def dRemB : Dist :=
  { projectName := "RB", key := "rb", version := "1", location := "/sp",
    eggInfo := "/sp/e", isDistInfo := true, extras := [], depsUncond := [], depsExtra := [],
    recordLines := none, installedFilesLines := none, metadataText := some "Summary: rb",
    pkgInfoText := none, entryPointsLines := none, installerLines := none }

def badSession : Session := fun n => if n == "RA" then .error "boom" else .ok ["9.9"]

/-- C5 counterexample: a transport error in the remote lookup for the
first package of a two-package batch is raised to the caller — the
whole result is the error, so no record is produced for the second
package either, contradicting both "mapped to unknown, never raised"
and "the other packages complete regardless". -/
theorem remote_error_aborts_batch_cx :
    (searchPackagesInfo ["RA", "RB"] [dRemA, dRemB] (some badSession)).result =
      .error (.remote "boom") := by decide

/-- C5 amended: with a session, only a successful lookup returning an
empty release list maps to the `"UNKNOWN"` marker (and a non-empty one
to its head); a transport error is not caught — it propagates as the
result of record production. -/
theorem remote_lookup_outcomes (ws : List Dist) (installed : List (String × Dist))
    (dist : Dist) (s : Session) (hm : (metadataBlockOf dist).isSome = true) :
    (s dist.projectName = .ok [] →
        buildRecord ws installed (some s) dist =
          .ok (buildRecordCore ws installed dist (some "UNKNOWN")
            ((metadataBlockOf dist).getD ""))) ∧
      (∀ v vs, s dist.projectName = .ok (v :: vs) →
        buildRecord ws installed (some s) dist =
          .ok (buildRecordCore ws installed dist (some v) ((metadataBlockOf dist).getD ""))) ∧
      (∀ msg, s dist.projectName = .error msg →
        buildRecord ws installed (some s) dist = .error (.remote msg)) := by
  rcases h : metadataBlockOf dist with _ | m
  · rw [h] at hm; cases hm
  · refine ⟨fun heq => ?_, fun v vs heq => ?_, fun msg heq => ?_⟩ <;>
      simp [buildRecord, pypiLookup, heq, h]

def sEmpty : Session := fun _ => .ok []

theorem remote_lookup_outcomes_witness :
    ((metadataBlockOf dRemA).isSome = true) ∧
      ((sEmpty dRemA.projectName = .ok [] →
          buildRecord [dRemA] (buildInstalled [dRemA]) (some sEmpty) dRemA =
            .ok (buildRecordCore [dRemA] (buildInstalled [dRemA]) dRemA (some "UNKNOWN")
              ((metadataBlockOf dRemA).getD ""))) ∧
        (∀ v vs, sEmpty dRemA.projectName = .ok (v :: vs) →
          buildRecord [dRemA] (buildInstalled [dRemA]) (some sEmpty) dRemA =
            .ok (buildRecordCore [dRemA] (buildInstalled [dRemA]) dRemA (some v)
              ((metadataBlockOf dRemA).getD ""))) ∧
        (∀ msg, sEmpty dRemA.projectName = .error msg →
          buildRecord [dRemA] (buildInstalled [dRemA]) (some sEmpty) dRemA =
            .error (.remote msg))) :=
  ⟨by decide,
    remote_lookup_outcomes [dRemA] (buildInstalled [dRemA]) dRemA sEmpty (by decide)⟩

/-! ## Claims about missing metadata (C6) -/

def dNoMeta : Dist :=
  { projectName := "nometa", key := "nometa", version := "1", location := "/sp",
    eggInfo := "/sp/e", isDistInfo := true, extras := [], depsUncond := [], depsExtra := [],
    recordLines := none, installedFilesLines := none, metadataText := none,
    pkgInfoText := none, entryPointsLines := none, installerLines := none }

/-- C6 counterexample: a found package with neither a `METADATA` nor a
`PKG-INFO` block makes report production fail — `feed_parser.feed(None)`
raises `TypeError`, so no record is produced at all. -/
theorem missing_metadata_block_fails_cx :
    (searchPackagesInfo ["nometa"] [dNoMeta] none).result = .error .typeError := by decide

/-- C6 amended: whenever the metadata block itself is present, record
production never fails — absent header fields are rendered as absent
(`none` via `fieldGet`) and an absent file manifest leaves the files
key absent — but a package with neither block fails (see the
counterexample). -/
theorem record_ok_when_block_present (ws : List Dist) (installed : List (String × Dist))
    (dist : Dist) (hm : (metadataBlockOf dist).isSome = true) :
    buildRecord ws installed none dist =
        .ok (buildRecordCore ws installed dist none ((metadataBlockOf dist).getD "")) ∧
      (fileListOf dist = none →
        (buildRecordCore ws installed dist none ((metadataBlockOf dist).getD "")).files = none) ∧
      ((buildRecordCore ws installed dist none ((metadataBlockOf dist).getD "")).summary =
        fieldGet ((metadataBlockOf dist).getD "") "summary") := by
  refine ⟨buildRecord_ok ws installed dist hm, fun hf => ?_, rfl⟩
  show filesEntry dist = none
  rw [filesEntry, hf]

def dC6 : Dist :=
  { projectName := "Meta-Only", key := "meta-only", version := "1", location := "/sp",
    eggInfo := "/sp/e", isDistInfo := true, extras := [], depsUncond := [], depsExtra := [],
    recordLines := none, installedFilesLines := none,
    metadataText := some "Metadata-Version: 2.1", pkgInfoText := none,
    entryPointsLines := none, installerLines := none }

theorem record_ok_when_block_present_witness :
    ((metadataBlockOf dC6).isSome = true) ∧
      (buildRecord [dC6] (buildInstalled [dC6]) none dC6 =
          .ok (buildRecordCore [dC6] (buildInstalled [dC6]) dC6 none
            ((metadataBlockOf dC6).getD "")) ∧
        (fileListOf dC6 = none →
          (buildRecordCore [dC6] (buildInstalled [dC6]) dC6 none
            ((metadataBlockOf dC6).getD "")).files = none) ∧
        ((buildRecordCore [dC6] (buildInstalled [dC6]) dC6 none
            ((metadataBlockOf dC6).getD "")).summary =
          fieldGet ((metadataBlockOf dC6).getD "") "summary")) :=
  ⟨by decide, record_ok_when_block_present [dC6] (buildInstalled [dC6]) dC6 (by decide)⟩

/-! ## Claims about extras entry order (C9) -/

def rA9 : Requirement := ⟨"a", "A", ""⟩

def rB9 : Requirement := ⟨"b", "B", ""⟩

def dC9 : Dist :=
  { projectName := "C9", key := "c9", version := "1", location := "/sp",
    eggInfo := "/sp/e", isDistInfo := true, extras := ["x"], depsUncond := [],
    depsExtra := [("x", [rA9, rB9])], recordLines := none, installedFilesLines := none,
    metadataText := some "Summary: c9", pkgInfoText := none, entryPointsLines := none,
    installerLines := none }

/-- C9 counterexample: the entries for an extra are produced by
iterating a Python `set`, whose enumeration order is unspecified — the
reversed enumeration `[rB9, rA9]` is an admissible iteration of the
set for extra `x` but does not match the insertion order `[rA9, rB9]`
of the extra's declared dependency list, so insertion order is not
guaranteed. -/
theorem extras_insertion_order_cx :
    ¬ (∀ l, isPySetIter (extraSetOf dC9 "x") l →
        l.map (formatPackage [dC9]) =
          ((((dC9.depsExtra.find? (fun pr => pr.1 == "x")).map (fun pr => pr.2)).getD []).map
            (formatPackage [dC9]))) := by
  intro h
  have h2 := h [rB9, rA9] (by decide)
  exact absurd h2 (by decide)

/-- C9 amended: the entry set for an extra is deterministic — its
membership is exactly the requirement-level set difference — and any
two admissible Python-set iteration orders are permutations of each
other; but the sequence order itself is unspecified rather than the
declared insertion order. -/
theorem extras_iteration_perm (d : Dist) (e : String) (l l' : List Requirement)
    (h : isPySetIter (extraSetOf d e) l) (h' : isPySetIter (extraSetOf d e) l') :
    l.Perm l' ∧ (∀ r, r ∈ l ↔ (r ∈ d.requires [e] ∧ r ∉ d.requires [])) := by
  obtain ⟨hn, hsub, hsup⟩ := h
  obtain ⟨hn', hsub', hsup'⟩ := h'
  constructor
  · refine (List.perm_ext_iff_of_nodup hn hn').mpr ?_
    intro a
    constructor
    · intro ha; exact hsup' a (hsub a ha)
    · intro ha; exact hsup a (hsub' a ha)
  · intro r
    constructor
    · intro hr; exact (mem_pySetDiff _ _ r).mp (hsub r hr)
    · intro hr; exact hsup r ((mem_pySetDiff _ _ r).mpr hr)

theorem extras_iteration_perm_witness :
    (isPySetIter (extraSetOf dC9 "x") [rA9, rB9] ∧
        isPySetIter (extraSetOf dC9 "x") [rB9, rA9]) ∧
      ([rA9, rB9].Perm [rB9, rA9] ∧
        (∀ r, r ∈ [rA9, rB9] ↔ (r ∈ dC9.requires ["x"] ∧ r ∉ dC9.requires []))) :=
  ⟨⟨by decide, by decide⟩,
    extras_iteration_perm dC9 "x" [rA9, rB9] [rB9, rA9] (by decide) (by decide)⟩

theorem duplicate_queries_not_deduped_witness :
    (["Foo-Bar", "FOO_BAR"].all (resolvesWithMeta wsC10) = true) ∧
      ((distributionsOf wsC10 ["Foo-Bar", "FOO_BAR"]).count wsC10.head! =
          (["Foo-Bar", "FOO_BAR"].countP
            (fun n => resolveQuery wsC10 n == some wsC10.head!)) ∧
        ∃ recs, (searchPackagesInfo ["Foo-Bar", "FOO_BAR"] wsC10 none).result = .ok recs ∧
          recs.length = (["Foo-Bar", "FOO_BAR"] : List String).length ∧
          List.Forall₂ (fun n r => resolveQuery wsC10 n = some wsC10.head! →
            r = recordFor wsC10 wsC10.head!) ["Foo-Bar", "FOO_BAR"] recs) :=
  ⟨by decide, duplicate_queries_not_deduped wsC10 ["Foo-Bar", "FOO_BAR"] wsC10.head! (by decide)⟩

end PipShow
